import Mathlib

/-!
Shallow embedding of the real-time coordination core of the
`alwayswithyou` server: the connection registry
(`apps/server/src/websocket/index.ts`), and the chat, presence and
call-signaling handlers (`apps/server/src/websocket/chat.ts`, which
concatenates the chat, presence and signaling handler modules).

JavaScript `Map` objects are embedded as association lists keyed by
`String`; `Set<string>` as duplicate-free `List String` with append-if-absent
insertion, mirroring JS insertion-order semantics.  Each WebSocket handler is
embedded as a pure function from its inputs (authenticated user id,
connection id, parsed envelope data, a database environment) to the new
in-memory state together with the ordered list of observable effects
(database writes, socket sends, user broadcasts) it performs, in the order
the source performs them.  Database reads are supplied by environment
functions; fallible database writes are controlled by environment flags.
-/

namespace AWY

/-! ### Association-list maps (embedding of JS `Map<string, V>`) -/

/-- `Map.set`: replace the binding of `k` if present, else append. -/
def mapSet (k : String) (v : α) : List (String × α) → List (String × α)
  | [] => [(k, v)]
  | (k₁, v₁) :: rest => if k₁ = k then (k, v) :: rest else (k₁, v₁) :: mapSet k v rest

/-- `Map.get`: first binding of `k`, if any. -/
def mapGet (k : String) : List (String × α) → Option α
  | [] => none
  | (k₁, v₁) :: rest => if k₁ = k then some v₁ else mapGet k rest

/-- `Map.delete`: remove the binding of `k`. -/
def mapDelete (k : String) : List (String × α) → List (String × α)
  | [] => []
  | (k₁, v₁) :: rest => if k₁ = k then mapDelete k rest else (k₁, v₁) :: mapDelete k rest

/-! ### Shared data model -/

/-- A row of the `pairings` table (only the member columns the handlers
read).  In this repository the two members are `student_id` and `parent_id`;
the spec calls them primary and companion. -/
structure Pairing where
  studentId : String
  parentId : String
deriving DecidableEq

/-- A row of the `profiles` table, as read by `notifyPairedPartners`. -/
structure Profile where
  userType : String
  visibleToPartner : Bool
  dndEnabled : Bool
deriving DecidableEq

/-- Call status literal union from the `ActiveCall` interface in the
signaling module. -/
inductive CallStatus
  | initiated
  | ringing
  | connected
  | ended
deriving DecidableEq

/-- Durable writes the handlers issue against Supabase.  The generated
`uuidv4()` message id is omitted (it is fresh randomness, not data flow). -/
inductive DbWrite
  | insertMessage (pairingId senderId content messageType : String)
  | upsertPresence (userId status : String)
  | insertCall (id pairingId callerId calleeId callType : String) (status : CallStatus)
  | updateCallStatus (id : String) (status : CallStatus)
  | updateCallConnected (id : String) (connectedAt : Nat)
  | updateCallEnded (id : String) (duration : Nat) (reason : String)
deriving DecidableEq

/-- Outbound WebSocket envelopes, reduced to the fields the claims are
about. -/
inductive WsMsg
  | errorMsg (ns err : String)
  | messageReceived (pairingId senderId content : String)
  | messageSent (tempId senderId content : String)
  | typingIndicator (userId pairingId : String) (isTyping : Bool)
  | partnerPresenceUpdate (userId status : String)
  | presenceState
  | presenceUpdated (status : String)
  | callError (callId err : String)
  | callOfferReceived (callId pairingId callerId callType : String)
  | callOfferSent (callId : String)
  | callAnswerReceived (callId : String)
  | callAnswered (callId : String)
  | callCandidateReceived (callId : String)
  | callEnded (callId reason : String) (duration : Nat)
deriving DecidableEq

/-- One observable effect of a handler, in program order.  `sendTo` is a
direct `socket.send` on a given connection; `toUser` is
`connectionManager.broadcastToUser`; `pushCheck` is the
`sendPushNotificationIfOffline` fire-and-forget call. -/
inductive Effect
  | db (w : DbWrite)
  | sendTo (connId : String) (m : WsMsg)
  | toUser (userId : String) (m : WsMsg)
  | pushCheck (userId : String)
deriving DecidableEq

/-! ### ChatRelay: `handleChatMessage` (chat.ts lines 90-206) -/

/-- Parsed `data` of an inbound chat `message` envelope
(`ChatMessageSchema`); `tempId` is the envelope's own `id`, echoed back as
`tempId` in the confirmation. -/
structure ChatMsgData where
  tempId : String
  pairingId : String
  senderId : String
  content : String
  messageType : String
deriving DecidableEq

/-- Environment for the chat handler: the `authService.hasPermission`
check, the outcome of the `messages` insert, and the `pairings` lookup
(`none` both for a missing row and for a query error, matching the
source's falsy test). -/
structure ChatEnv where
  hasPermission : String → String → Bool
  insertOk : Bool
  getPairing : String → Option Pairing

/-- Embedding of `handleChatMessage`.  Program order of the source:
permission check (Forbidden error and stop on failure); `messages` insert
(error envelope to the sender and stop on failure); `pairings` lookup (on a
missing pairing the message is persisted but nothing further happens);
otherwise broadcast `message_received` to the recipient, send
`message_sent` confirmation to the sender, clear the sender's typing
indicator, and run the offline-push check.  The persisted and broadcast
sender id is `data.senderId` from the envelope, while the recipient is
computed from the authenticated `connection.userId`. -/
def handleChatMessage (env : ChatEnv) (userId connId : String) (d : ChatMsgData) :
    List Effect :=
  if env.hasPermission userId d.pairingId = false then
    [.sendTo connId (.errorMsg "chat" "Forbidden")]
  else if env.insertOk = false then
    [.sendTo connId (.errorMsg "chat" "Failed to send message")]
  else
    match env.getPairing d.pairingId with
    | none => [.db (.insertMessage d.pairingId d.senderId d.content d.messageType)]
    | some pairing =>
      let recipientId := if pairing.studentId = userId then pairing.parentId
                         else pairing.studentId
      [.db (.insertMessage d.pairingId d.senderId d.content d.messageType),
       .toUser recipientId (.messageReceived d.pairingId d.senderId d.content),
       .sendTo connId (.messageSent d.tempId d.senderId d.content),
       .toUser recipientId (.typingIndicator userId d.pairingId false),
       .pushCheck recipientId]

/-- `true` exactly on `message_received` delivery effects. -/
def isDelivery : Effect → Bool
  | .toUser _ (.messageReceived _ _ _) => true
  | _ => false

/-- `true` exactly on `message_sent` confirmation effects. -/
def isConfirmation : Effect → Bool
  | .sendTo _ (.messageSent _ _ _) => true
  | _ => false

/-- `true` exactly on durable `messages` inserts. -/
def isPersistMessage : Effect → Bool
  | .db (.insertMessage _ _ _ _) => true
  | _ => false

/-! ### PresenceCoordinator (chat.ts lines 443-774, the presence module) -/

/-- Environment for the presence handlers: the active-`pairings` rows
matching `.or(student_id.eq.U, parent_id.eq.U)`, and the `profiles` row of
a user (`none` when the lookup returns nothing). -/
structure PresenceEnv where
  pairingsOf : String → List Pairing
  profileOf : String → Option Profile

/-- Embedding of `notifyPairedPartners`: look up the subject's active
pairings, compute the partner of each, look up the subject's profile
(silently stop when absent), suppress every notification when the subject
is a student with `visible_to_partner = false` or has `dnd_enabled`, and
otherwise broadcast one `partner_presence_update` per pairing partner. -/
def notifyPairedPartners (env : PresenceEnv) (userId status : String) : List Effect :=
  let pairings := env.pairingsOf userId
  let partnerIds := pairings.map fun p =>
    if p.studentId = userId then p.parentId else p.studentId
  match env.profileOf userId with
  | none => []
  | some prof =>
    if (prof.userType = "student" ∧ prof.visibleToPartner = false) ∨ prof.dndEnabled = true then
      []
    else
      partnerIds.map fun pid => .toUser pid (.partnerPresenceUpdate userId status)

/-- Embedding of the connect prologue of `presenceHandler`: on every
accepted presence connection it upserts the user's presence row to
`online` (`updateUserPresence`), runs `notifyPairedPartners`, and sends
the `presence_state` snapshot to the new connection — with no check
whether the user already had live connections. -/
def presenceConnect (env : PresenceEnv) (userId connId : String) : List Effect :=
  .db (.upsertPresence userId "online")
    :: notifyPairedPartners env userId "online"
    ++ [.sendTo connId .presenceState]

/-- Effects of a sequence of presence-channel connection opens by the same
user (one `presenceHandler` prologue per connection). -/
def presenceConnectRun (env : PresenceEnv) (userId : String) (connIds : List String) :
    List Effect :=
  (connIds.map (presenceConnect env userId)).flatten

/-- Embedding of `handlePresenceUpdate`: reject with Forbidden when the
envelope's target user differs from the authenticated user; otherwise
persist the new status, notify partners, and confirm to the caller. -/
def handlePresenceUpdate (env : PresenceEnv) (userId connId targetUserId status : String) :
    List Effect :=
  if targetUserId ≠ userId then
    [.sendTo connId (.errorMsg "presence" "Forbidden")]
  else
    .db (.upsertPresence targetUserId status)
      :: notifyPairedPartners env targetUserId status
      ++ [.sendTo connId (.presenceUpdated status)]

/-- Number of `partner_presence_update` envelopes addressed to `partner`
in an effect list. -/
def countPartnerUpdatesTo (partner : String) (out : List Effect) : Nat :=
  out.countP fun e =>
    match e with
    | .toUser p (.partnerPresenceUpdate _ _) => p == partner
    | _ => false

/-! ### ConnectionRegistry: `ConnectionManager` (websocket/index.ts lines 10-118) -/

/-- A `WebSocketConnection` record (the socket handle itself is not data). -/
structure Conn where
  id : String
  userId : String
  ns : String
  lastHeartbeat : Nat
deriving DecidableEq

/-- The two indexes of `ConnectionManager`: `connections : Map<id, conn>`
and `userConnections : Map<userId, Set<id>>`. -/
structure ConnMgr where
  connections : List (String × Conn)
  userConnections : List (String × List String)
deriving DecidableEq

def emptyMgr : ConnMgr := ⟨[], []⟩

/-- JS `Set.add`: append if absent. -/
def setAdd (x : String) (l : List String) : List String :=
  if x ∈ l then l else l ++ [x]

/-- Embedding of `addConnection`: insert into the by-id map, create the
user's id-set when missing, and add the connection id to it. -/
def addConnection (c : Conn) (m : ConnMgr) : ConnMgr :=
  { connections := mapSet c.id c m.connections
    userConnections :=
      let cur := (mapGet c.userId m.userConnections).getD []
      mapSet c.userId (setAdd c.id cur) m.userConnections }

/-- Embedding of `removeConnection`: a no-op when the id is absent from
the by-id map; otherwise delete it from both indexes, dropping the user's
entry entirely when its id-set becomes empty. -/
def removeConnection (connId : String) (m : ConnMgr) : ConnMgr :=
  match mapGet connId m.connections with
  | none => m
  | some c =>
    { connections := mapDelete connId m.connections
      userConnections :=
        match mapGet c.userId m.userConnections with
        | none => m.userConnections
        | some ids =>
          let ids' := ids.filter (fun i => i ≠ connId)
          if ids' = [] then mapDelete c.userId m.userConnections
          else mapSet c.userId ids' m.userConnections }

/-- Embedding of `getUserConnections`: map the user's id-set through the
by-id map and drop the misses (`.filter(Boolean)`). -/
def getUserConnections (userId : String) (m : ConnMgr) : List Conn :=
  ((mapGet userId m.userConnections).getD []).filterMap fun i => mapGet i m.connections

/-- Embedding of `broadcastToUser`.  The iteration runs over the snapshot
taken by `getUserConnections`; `dead` marks the connections whose
`socket.send` throws, and a throw removes just that connection and the
broadcast continues.  Returns the new registry and the sends performed. -/
def broadcastToUser (userId : String) (msg : WsMsg) (excludeId : Option String)
    (dead : String → Bool) (m : ConnMgr) : ConnMgr × List Effect :=
  (getUserConnections userId m).foldl
    (fun acc c =>
      if some c.id = excludeId then acc
      else if dead c.id then (removeConnection c.id acc.1, acc.2)
      else (acc.1, acc.2 ++ [.sendTo c.id msg]))
    (m, [])

/-- One registry call, as in the claim: `addConnection`, `removeConnection`
or `broadcastToUser`. -/
inductive MgrOp
  | add (c : Conn)
  | remove (connId : String)
  | broadcast (userId : String) (msg : WsMsg) (excludeId : Option String) (dead : String → Bool)

def applyMgrOp (m : ConnMgr) : MgrOp → ConnMgr
  | .add c => addConnection c m
  | .remove connId => removeConnection connId m
  | .broadcast userId msg excludeId dead => (broadcastToUser userId msg excludeId dead m).1

/-- Consistency of the two indexes: every by-user entry is a nonempty set
of ids of by-id connections belonging to that user, and every by-id
connection is listed under its user. -/
def Consistent (m : ConnMgr) : Prop :=
  (∀ u ids, mapGet u m.userConnections = some ids →
    ids ≠ [] ∧ ∀ i ∈ ids, ∃ c, mapGet i m.connections = some c ∧ c.userId = u) ∧
  (∀ i c, mapGet i m.connections = some c →
    ∃ ids, mapGet c.userId m.userConnections = some ids ∧ i ∈ ids)

/-- Freshness precondition of a registry call: an added connection's id is
not currently in the by-id map; removals and broadcasts are unrestricted. -/
def FreshId (m : ConnMgr) : MgrOp → Prop
  | .add c => mapGet c.id m.connections = none
  | _ => True

/-! ### Stale-connection sweep (websocket/index.ts lines 239-258) -/

def staleTimeoutMs : Nat := 60000

def sweepIntervalMs : Nat := 30000

/-- The `staleConnections` array collected by the periodic cleanup body:
ids of connections whose heartbeat age strictly exceeds
`staleTimeoutMs`. -/
def staleIds (now : Nat) (m : ConnMgr) : List String :=
  (m.connections.filter fun e =>
    decide (staleTimeoutMs < now - e.2.lastHeartbeat)).map Prod.fst

/-- Embedding of the periodic cleanup body: collect the stale ids, then
call `removeConnection` on each.  The body performs no other calls, so the
effect list is empty by construction: no presence-offline evaluation and
no call cascade runs on this path. -/
def sweepOnce (now : Nat) (m : ConnMgr) : ConnMgr × List Effect :=
  ((staleIds now m).foldl (fun acc i => removeConnection i acc) m, [])

/-- Embedding of the presence channel's `socket.on close` handler: remove
the connection, and when the user has no remaining connections persist
`offline` and notify partners. -/
def presenceClose (env : PresenceEnv) (c : Conn) (m : ConnMgr) : ConnMgr × List Effect :=
  let m₁ := removeConnection c.id m
  if getUserConnections c.userId m₁ = [] then
    (m₁, .db (.upsertPresence c.userId "offline")
           :: notifyPairedPartners env c.userId "offline")
  else
    (m₁, [])

/-! ### CallSignalingEngine (chat.ts lines 776-1277, the signaling module) -/

/-- The `ActiveCall` interface. -/
structure ActiveCall where
  id : String
  pairingId : String
  callerId : String
  calleeId : String
  callType : String
  status : CallStatus
  startedAt : Nat
  connectedAt : Option Nat := none
  endedAt : Option Nat := none
deriving DecidableEq

/-- The `activeCalls` map, keyed by call id. -/
abbrev CallMap := List (String × ActiveCall)

/-- Environment for the signaling handlers: the
`pairings ... .eq(status, active)` single-row lookup (`none` on error or
no row). -/
structure SigEnv where
  getActivePairing : String → Option Pairing

/-- The busy scan in `handleCallOffer`: does any call in the map involve
`calleeId` (as caller or callee) with status other than `ended`? -/
def findBusy (calleeId : String) (calls : CallMap) : Bool :=
  calls.any fun e =>
    decide ((e.2.callerId = calleeId ∨ e.2.calleeId = calleeId) ∧ e.2.status ≠ .ended)

/-- Parsed `data` of a `call_offer` envelope. -/
structure OfferData where
  callId : String
  pairingId : String
  callType : String
deriving DecidableEq

/-- Embedding of `endCall`: a no-op for an absent call id; otherwise
compute the duration (seconds between `connectedAt` and now when the call
was connected, else 0), persist the terminal row, send `call_ended` to
both parties, and delete the call from the map. -/
def endCall (callId reason : String) (now : Nat) (calls : CallMap) :
    CallMap × List Effect :=
  match mapGet callId calls with
  | none => (calls, [])
  | some call =>
    let duration := match call.connectedAt with
      | some t => (now - t) / 1000
      | none => 0
    (mapDelete callId calls,
     [.db (.updateCallEnded callId duration reason),
      .toUser call.callerId (.callEnded callId reason duration),
      .toUser call.calleeId (.callEnded callId reason duration)])

/-- Embedding of `handleCallOffer`.  Program order: active-pairing lookup
(error `Invalid pairing` when absent), membership check (error
`Forbidden`), computation of the callee as the pairing's other member,
busy scan over `activeCalls` for the callee (error `User busy`, nothing
created, nothing persisted), then: store the call (created `initiated`,
mutated to `ringing` before the handler returns), insert the `calls` row,
forward `call_offer_received` to the callee, persist the `ringing` update
and confirm `call_offer_sent` to the caller.  The 30-second timeout task
it schedules is `timeoutFire` below. -/
def handleCallOffer (env : SigEnv) (userId connId : String) (d : OfferData)
    (now : Nat) (calls : CallMap) : CallMap × List Effect :=
  match env.getActivePairing d.pairingId with
  | none => (calls, [.sendTo connId (.callError d.callId "Invalid pairing")])
  | some pairing =>
    if pairing.studentId ≠ userId ∧ pairing.parentId ≠ userId then
      (calls, [.sendTo connId (.callError d.callId "Forbidden")])
    else
      let calleeId := if pairing.studentId = userId then pairing.parentId
                      else pairing.studentId
      if findBusy calleeId calls then
        (calls, [.sendTo connId (.callError d.callId "User busy")])
      else
        let call : ActiveCall :=
          { id := d.callId, pairingId := d.pairingId, callerId := userId,
            calleeId := calleeId, callType := d.callType,
            status := .ringing, startedAt := now }
        (mapSet d.callId call calls,
         [.db (.insertCall d.callId d.pairingId userId calleeId d.callType .initiated),
          .toUser calleeId (.callOfferReceived d.callId d.pairingId userId d.callType),
          .db (.updateCallStatus d.callId .ringing),
          .sendTo connId (.callOfferSent d.callId)])

/-- Embedding of the `setTimeout` body scheduled by `handleCallOffer`:
re-read the call and end it with reason `timeout` only when it is still
`ringing`; otherwise do nothing. -/
def timeoutFire (callId : String) (now : Nat) (calls : CallMap) :
    CallMap × List Effect :=
  match mapGet callId calls with
  | some call =>
    if call.status = .ringing then endCall callId "timeout" now calls
    else (calls, [])
  | none => (calls, [])

/-- Embedding of `handleCallAnswer`: `Call not found` error for an absent
id, `Forbidden` when the answerer is not the callee, else mark the call
connected (stamping `connectedAt`), persist, forward
`call_answer_received` to the caller and confirm to the callee. -/
def handleCallAnswer (userId connId callId : String) (now : Nat) (calls : CallMap) :
    CallMap × List Effect :=
  match mapGet callId calls with
  | none => (calls, [.sendTo connId (.callError callId "Call not found")])
  | some call =>
    if call.calleeId ≠ userId then
      (calls, [.sendTo connId (.callError callId "Forbidden")])
    else
      let call' := { call with status := .connected, connectedAt := some now }
      (mapSet callId call' calls,
       [.db (.updateCallConnected callId now),
        .toUser call.callerId (.callAnswerReceived callId),
        .sendTo connId (.callAnswered callId)])

/-- Embedding of `handleCallCandidate`: silently ignore unknown call ids
and non-members, else relay to the other party. -/
def handleCallCandidate (userId callId : String) (calls : CallMap) :
    CallMap × List Effect :=
  match mapGet callId calls with
  | none => (calls, [])
  | some call =>
    if call.callerId ≠ userId ∧ call.calleeId ≠ userId then (calls, [])
    else
      let targetId := if call.callerId = userId then call.calleeId else call.callerId
      (calls, [.toUser targetId (.callCandidateReceived callId)])

/-- Embedding of `handleCallHangup`: end the named call with the supplied
reason, defaulting to `hangup`. -/
def handleCallHangup (callId : String) (reason : Option String) (now : Nat)
    (calls : CallMap) : CallMap × List Effect :=
  endCall callId (reason.getD "hangup") now calls

/-- Embedding of `endUserCalls` (the disconnect cascade): end, with the
given reason, every call in the map involving the user with status other
than `ended`. -/
def endUserCalls (userId reason : String) (now : Nat) (calls : CallMap) :
    CallMap × List Effect :=
  let userCalls := calls.filter fun e =>
    decide ((e.2.callerId = userId ∨ e.2.calleeId = userId) ∧ e.2.status ≠ .ended)
  userCalls.foldl
    (fun acc e =>
      let r := endCall e.2.id reason now acc.1
      (r.1, acc.2 ++ r.2))
    (calls, [])

/-- One signaling-engine event: an inbound envelope dispatched by
`signalingHandler`, a ringing-timeout firing, or a signaling-connection
close (which runs the `connection_lost` cascade). -/
inductive SigOp
  | offer (userId connId : String) (d : OfferData) (now : Nat)
  | answer (userId connId callId : String) (now : Nat)
  | candidate (userId callId : String)
  | hangup (callId : String) (reason : Option String) (now : Nat)
  | timeoutAt (callId : String) (now : Nat)
  | disconnect (userId : String) (now : Nat)

def sigStep (env : SigEnv) (calls : CallMap) : SigOp → CallMap × List Effect
  | .offer userId connId d now => handleCallOffer env userId connId d now calls
  | .answer userId connId callId now => handleCallAnswer userId connId callId now calls
  | .candidate userId callId => handleCallCandidate userId callId calls
  | .hangup callId reason now => handleCallHangup callId reason now calls
  | .timeoutAt callId now => timeoutFire callId now calls
  | .disconnect userId now => endUserCalls userId "connection_lost" now calls

/-- The `activeCalls` map reached after a sequence of signaling events,
starting from the empty map the module initializes. -/
def sigRun (env : SigEnv) (ops : List SigOp) : CallMap :=
  ops.foldl (fun calls op => (sigStep env calls op).1) []

/-- Number of calls in the map involving `u` (caller or callee) whose
status is not `ended` — the quantity the one-active-call invariant
bounds. -/
def nonEndedCountFor (u : String) (calls : CallMap) : Nat :=
  calls.countP fun e =>
    decide ((e.2.callerId = u ∨ e.2.calleeId = u) ∧ e.2.status ≠ .ended)

/-- Number of non-ended calls in the map whose **callee** is `u`. -/
def calleeNonEndedCount (u : String) (calls : CallMap) : Nat :=
  calls.countP fun e => decide (e.2.calleeId = u ∧ e.2.status ≠ .ended)

/-- Structural well-formedness of the `activeCalls` map maintained by the
handlers: every entry is keyed by its call id, is never stored in the
`ended` state (ended calls are deleted), and has no `connectedAt` stamp
while still ringing. -/
def CallWF (calls : CallMap) : Prop :=
  ∀ e ∈ calls, e.1 = e.2.id ∧ e.2.status ≠ CallStatus.ended ∧
    (e.2.status = CallStatus.ringing → e.2.connectedAt = none)

/-- Inductive invariant of the signaling engine: well-formedness plus the
per-callee one-active-call bound enforced by the busy check. -/
def SigInv (calls : CallMap) : Prop :=
  CallWF calls ∧ ∀ u, calleeNonEndedCount u calls ≤ 1

/-- Duplicate-freeness of an association list's keys (true of the embedded
JS `Map`s). -/
def KeysNodup (l : List (String × α)) : Prop := (l.map Prod.fst).Nodup

/-! ### Concrete fixtures used by witnesses and counterexamples -/

/-- Pairing p1: student `x`, parent `z`. -/
def pairXZ : Pairing := ⟨"x", "z"⟩

/-- Pairing p2: student `x`, parent `y`. -/
def pairXY : Pairing := ⟨"x", "y"⟩

/-- Signaling environment with active pairings p1 = (x, z) and
p2 = (x, y). -/
def sigEnvX : SigEnv :=
  ⟨fun pid => if pid = "p1" then some pairXZ else if pid = "p2" then some pairXY else none⟩

/-- `x` offers a video call to `z` over p1. -/
def offerXZ : SigOp := .offer "x" "cx" ⟨"call1", "p1", "video"⟩ 0

/-- `x` offers a second video call, to `y` over p2, while the first is
still ringing. -/
def offerXY : SigOp := .offer "x" "cx" ⟨"call2", "p2", "video"⟩ 1

/-- Presence environment: `a` (a parent, visible, no DND) paired with
`b`. -/
def presEnvAB : PresenceEnv :=
  ⟨fun u => if u = "a" then [⟨"a", "b"⟩] else [],
   fun u => if u = "a" then some ⟨"parent", true, false⟩ else none⟩

/-- Chat environment: pairing p1 joins `alice` (student) and `bob`
(parent); permission always granted; inserts succeed. -/
def chatEnvAB : ChatEnv :=
  ⟨fun _ _ => true, true, fun pid => if pid = "p1" then some ⟨"alice", "bob"⟩ else none⟩

/-- A chat envelope whose `data.senderId` (`mallory`) differs from the
authenticated sender (`alice`). -/
def spoofedMsg : ChatMsgData := ⟨"t1", "p1", "mallory", "hi", "text"⟩

/-- A presence connection for user `u` with a stale heartbeat. -/
def staleConn : Conn := ⟨"i", "u", "presence", 0⟩

/-- Registry holding only `staleConn`. -/
def staleMgr : ConnMgr := addConnection staleConn emptyMgr

/-- Empty collaborator environment for presence lookups. -/
def emptyPresEnv : PresenceEnv := ⟨fun _ => [], fun _ => none⟩

/-! ## Lemmas about the association-list map operations -/

theorem mapGet_mapSet_self (k : String) (v : α) (l : List (String × α)) :
    mapGet k (mapSet k v l) = some v := by
  induction l with
  | nil => simp [mapSet, mapGet]
  | cons e rest ih =>
    obtain ⟨k₁, v₁⟩ := e
    by_cases h : k₁ = k <;> simp [mapSet, mapGet, h, ih]

theorem mapGet_mapSet_ne (k k₂ : String) (v : α) (l : List (String × α)) (h : k₂ ≠ k) :
    mapGet k₂ (mapSet k v l) = mapGet k₂ l := by
  have h₀ : k ≠ k₂ := Ne.symm h
  induction l with
  | nil => simp [mapSet, mapGet, h₀]
  | cons e rest ih =>
    obtain ⟨k₁, v₁⟩ := e
    by_cases h₁ : k₁ = k
    · subst h₁
      simp [mapSet, mapGet, h₀]
    · simp only [mapSet, if_neg h₁]
      by_cases h₂ : k₁ = k₂ <;> simp [mapGet, h₂, ih]

theorem mapGet_mapDelete_self (k : String) (l : List (String × α)) :
    mapGet k (mapDelete k l) = none := by
  induction l with
  | nil => simp [mapDelete, mapGet]
  | cons e rest ih =>
    obtain ⟨k₁, v₁⟩ := e
    by_cases h : k₁ = k <;> simp [mapDelete, mapGet, h, ih]

theorem mapGet_mapDelete_ne (k k₂ : String) (l : List (String × α)) (h : k₂ ≠ k) :
    mapGet k₂ (mapDelete k l) = mapGet k₂ l := by
  have h₀ : k ≠ k₂ := Ne.symm h
  induction l with
  | nil => simp [mapDelete]
  | cons e rest ih =>
    obtain ⟨k₁, v₁⟩ := e
    by_cases h₁ : k₁ = k
    · subst h₁
      simp [mapDelete, mapGet, h₀, ih]
    · by_cases h₂ : k₁ = k₂
      · subst h₂
        simp [mapDelete, mapGet, h₁, ih]
      · simp [mapDelete, mapGet, h₁, h₂, ih]

theorem mapGet_mem (k : String) (v : α) (l : List (String × α))
    (h : mapGet k l = some v) : (k, v) ∈ l := by
  induction l with
  | nil => simp [mapGet] at h
  | cons e rest ih =>
    obtain ⟨k₁, v₁⟩ := e
    by_cases h₁ : k₁ = k
    · subst h₁
      simp [mapGet] at h
      simp [h]
    · simp [mapGet, h₁] at h
      exact List.mem_cons_of_mem _ (ih h)

theorem mem_get_ne_none (k : String) (v : α) (l : List (String × α))
    (h : (k, v) ∈ l) : mapGet k l ≠ none := by
  induction l with
  | nil => simp at h
  | cons e rest ih =>
    obtain ⟨k₁, v₁⟩ := e
    rcases List.mem_cons.mp h with h₂ | h₂
    · obtain ⟨rfl, rfl⟩ := Prod.mk.injEq .. ▸ h₂
      simp [mapGet]
    · by_cases h₁ : k₁ = k <;> simp [mapGet, h₁, ih h₂]

theorem mapGet_eq_of_mem_nodup (k : String) (v : α) (l : List (String × α))
    (hnd : KeysNodup l) (h : (k, v) ∈ l) : mapGet k l = some v := by
  induction l with
  | nil => simp at h
  | cons e rest ih =>
    obtain ⟨k₁, v₁⟩ := e
    have hnd₂ : KeysNodup rest := (List.nodup_cons.mp hnd).2
    rcases List.mem_cons.mp h with h₂ | h₂
    · obtain ⟨rfl, rfl⟩ := Prod.mk.injEq .. ▸ h₂
      simp [mapGet]
    · have hk : k₁ ≠ k := by
        intro hk
        subst hk
        exact (List.nodup_cons.mp hnd).1 (List.mem_map.mpr ⟨(k₁, v), h₂, rfl⟩)
      simp [mapGet, hk, ih hnd₂ h₂]

theorem mapDelete_of_get_none (k : String) (l : List (String × α))
    (h : mapGet k l = none) : mapDelete k l = l := by
  induction l with
  | nil => rfl
  | cons e rest ih =>
    obtain ⟨k₁, v₁⟩ := e
    by_cases h₁ : k₁ = k
    · simp [mapGet, h₁] at h
    · simp [mapGet, h₁] at h
      simp [mapDelete, h₁, ih h]

theorem mem_mapSet (k : String) (v : α) (l : List (String × α)) (e : String × α)
    (h : e ∈ mapSet k v l) : e = (k, v) ∨ e ∈ l := by
  induction l with
  | nil => simp [mapSet] at h; simp [h]
  | cons e₁ rest ih =>
    obtain ⟨k₁, v₁⟩ := e₁
    by_cases h₁ : k₁ = k
    · simp only [mapSet, if_pos h₁] at h
      rcases List.mem_cons.mp h with h₂ | h₂
      · exact Or.inl h₂
      · exact Or.inr (List.mem_cons_of_mem _ h₂)
    · simp only [mapSet, if_neg h₁] at h
      rcases List.mem_cons.mp h with h₂ | h₂
      · exact Or.inr (h₂ ▸ List.mem_cons_self _ _)
      · rcases ih h₂ with h₃ | h₃
        · exact Or.inl h₃
        · exact Or.inr (List.mem_cons_of_mem _ h₃)

theorem mem_mapDelete (k : String) (l : List (String × α)) (e : String × α)
    (h : e ∈ mapDelete k l) : e ∈ l := by
  induction l with
  | nil => simp [mapDelete] at h
  | cons e₁ rest ih =>
    obtain ⟨k₁, v₁⟩ := e₁
    by_cases h₁ : k₁ = k
    · simp only [mapDelete, if_pos h₁] at h
      exact List.mem_cons_of_mem _ (ih h)
    · simp only [mapDelete, if_neg h₁] at h
      rcases List.mem_cons.mp h with h₂ | h₂
      · exact h₂ ▸ List.mem_cons_self _ _
      · exact List.mem_cons_of_mem _ (ih h₂)

theorem countP_mapDelete_le (p : String × α → Bool) (k : String) (l : List (String × α)) :
    (mapDelete k l).countP p ≤ l.countP p := by
  induction l with
  | nil => simp [mapDelete]
  | cons e rest ih =>
    obtain ⟨k₁, v₁⟩ := e
    by_cases h₁ : k₁ = k
    · simp only [mapDelete, if_pos h₁]
      exact le_trans ih (by simp [List.countP_cons])
    · simp only [mapDelete, if_neg h₁, List.countP_cons]
      omega

theorem countP_mapSet_of_get_none (p : String × α → Bool) (k : String) (v : α)
    (l : List (String × α)) (h : mapGet k l = none) :
    (mapSet k v l).countP p = l.countP p + (if p (k, v) then 1 else 0) := by
  induction l with
  | nil => simp [mapSet, List.countP_cons]
  | cons e rest ih =>
    obtain ⟨k₁, v₁⟩ := e
    by_cases h₁ : k₁ = k
    · simp [mapGet, h₁] at h
    · simp [mapGet, h₁] at h
      simp only [mapSet, if_neg h₁, List.countP_cons, ih h]
      omega

theorem countP_mapSet_of_get (p : String × α → Bool) (k : String) (v v₀ : α)
    (l : List (String × α)) (h : mapGet k l = some v₀) :
    (mapSet k v l).countP p + (if p (k, v₀) then 1 else 0)
      = l.countP p + (if p (k, v) then 1 else 0) := by
  induction l with
  | nil => simp [mapGet] at h
  | cons e rest ih =>
    obtain ⟨k₁, v₁⟩ := e
    by_cases h₁ : k₁ = k
    · subst h₁
      simp [mapGet] at h
      subst h
      simp [mapSet, List.countP_cons]
      omega
    · simp [mapGet, h₁] at h
      simp only [mapSet, if_neg h₁, List.countP_cons, Nat.add_right_comm, ih h]

theorem setAdd_ne_nil (x : String) (l : List String) : setAdd x l ≠ [] := by
  unfold setAdd
  by_cases h : x ∈ l
  · simp only [if_pos h]
    intro hn
    simp [hn] at h
  · simp [if_neg h]

theorem mem_setAdd_self (x : String) (l : List String) : x ∈ setAdd x l := by
  unfold setAdd
  by_cases h : x ∈ l <;> simp [h]

theorem mem_setAdd_of_mem (x y : String) (l : List String) (h : y ∈ l) :
    y ∈ setAdd x l := by
  unfold setAdd
  by_cases h₁ : x ∈ l <;> simp [h₁, h]

theorem mem_setAdd (x y : String) (l : List String) (h : y ∈ setAdd x l) :
    y = x ∨ y ∈ l := by
  unfold setAdd at h
  by_cases h₁ : x ∈ l
  · simp only [if_pos h₁] at h
    exact Or.inr h
  · simp only [if_neg h₁, List.mem_append, List.mem_singleton] at h
    tauto

/-! ## C3: persistence happens-before delivery happens-before confirmation -/

/-- C3: For every chat-message send, `handleChatMessage`'s effect list is
fully characterized: a failed permission check yields only a Forbidden
error; a failed persistence yields only an error envelope to the sender
(no delivery, no confirmation, no durable write); on success the durable
insert is the first effect, the `message_received` broadcast to the
recipient comes second, and the `message_sent` confirmation to the sender
third — so persistence happens-before delivery happens-before
confirmation, and any delivered `message_received` is preceded by the
successful persistence of that message (first effect of the list). -/
theorem chat_persist_before_deliver_before_confirm :
    ∀ (env : ChatEnv) (u c : String) (d : ChatMsgData),
    (env.hasPermission u d.pairingId = false →
      handleChatMessage env u c d = [.sendTo c (.errorMsg "chat" "Forbidden")]) ∧
    (env.hasPermission u d.pairingId = true → env.insertOk = false →
      handleChatMessage env u c d = [.sendTo c (.errorMsg "chat" "Failed to send message")]) ∧
    (env.insertOk = false → ∀ e ∈ handleChatMessage env u c d,
      isDelivery e = false ∧ isConfirmation e = false ∧ isPersistMessage e = false) ∧
    (env.hasPermission u d.pairingId = true → env.insertOk = true →
      env.getPairing d.pairingId = none →
      handleChatMessage env u c d
        = [.db (.insertMessage d.pairingId d.senderId d.content d.messageType)]) ∧
    (∀ p : Pairing, env.hasPermission u d.pairingId = true → env.insertOk = true →
      env.getPairing d.pairingId = some p →
      handleChatMessage env u c d
        = [.db (.insertMessage d.pairingId d.senderId d.content d.messageType),
           .toUser (if p.studentId = u then p.parentId else p.studentId)
             (.messageReceived d.pairingId d.senderId d.content),
           .sendTo c (.messageSent d.tempId d.senderId d.content),
           .toUser (if p.studentId = u then p.parentId else p.studentId)
             (.typingIndicator u d.pairingId false),
           .pushCheck (if p.studentId = u then p.parentId else p.studentId)]) ∧
    (∀ e ∈ handleChatMessage env u c d, isDelivery e = true →
      env.insertOk = true ∧
      (handleChatMessage env u c d).head?
        = some (.db (.insertMessage d.pairingId d.senderId d.content d.messageType))) := by
  intro env u c d
  refine ⟨?_, ?_, ?_, ?_, ?_, ?_⟩
  · intro h₁
    simp [handleChatMessage, h₁]
  · intro h₁ h₂
    simp [handleChatMessage, h₁, h₂]
  · intro h₂ e he
    by_cases h₁ : env.hasPermission u d.pairingId = false
    · have hout : handleChatMessage env u c d = [.sendTo c (.errorMsg "chat" "Forbidden")] := by
        simp [handleChatMessage, h₁]
      rw [hout] at he
      simp at he
      subst he
      exact ⟨rfl, rfl, rfl⟩
    · have hout : handleChatMessage env u c d
          = [.sendTo c (.errorMsg "chat" "Failed to send message")] := by
        simp [handleChatMessage, h₁, h₂]
      rw [hout] at he
      simp at he
      subst he
      exact ⟨rfl, rfl, rfl⟩
  · intro h₁ h₂ h₃
    simp [handleChatMessage, h₁, h₂, h₃]
  · intro p h₁ h₂ h₃
    simp [handleChatMessage, h₁, h₂, h₃]
  · intro e he hd
    by_cases h₂ : env.insertOk = false
    · exfalso
      by_cases h₁ : env.hasPermission u d.pairingId = false
      · have hout : handleChatMessage env u c d = [.sendTo c (.errorMsg "chat" "Forbidden")] := by
          simp [handleChatMessage, h₁]
        rw [hout] at he
        simp at he
        subst he
        exact Bool.noConfusion hd
      · have hout : handleChatMessage env u c d
            = [.sendTo c (.errorMsg "chat" "Failed to send message")] := by
          simp [handleChatMessage, h₁, h₂]
        rw [hout] at he
        simp at he
        subst he
        exact Bool.noConfusion hd
    · have h₂' : env.insertOk = true := by
        revert h₂
        cases env.insertOk <;> simp
      refine ⟨h₂', ?_⟩
      by_cases h₁ : env.hasPermission u d.pairingId = false
      · exfalso
        have hout : handleChatMessage env u c d = [.sendTo c (.errorMsg "chat" "Forbidden")] := by
          simp [handleChatMessage, h₁]
        rw [hout] at he
        simp at he
        subst he
        exact Bool.noConfusion hd
      · cases h₃ : env.getPairing d.pairingId with
        | none =>
          have hout : handleChatMessage env u c d
              = [.db (.insertMessage d.pairingId d.senderId d.content d.messageType)] := by
            simp [handleChatMessage, h₁, h₂', h₃]
          rw [hout]
          rfl
        | some p =>
          have hout : handleChatMessage env u c d
              = [.db (.insertMessage d.pairingId d.senderId d.content d.messageType),
                 .toUser (if p.studentId = u then p.parentId else p.studentId)
                   (.messageReceived d.pairingId d.senderId d.content),
                 .sendTo c (.messageSent d.tempId d.senderId d.content),
                 .toUser (if p.studentId = u then p.parentId else p.studentId)
                   (.typingIndicator u d.pairingId false),
                 .pushCheck (if p.studentId = u then p.parentId else p.studentId)] := by
            simp [handleChatMessage, h₁, h₂', h₃]
          rw [hout]
          rfl

/-- C3 witness: the success-path characterization at a concrete send. -/
theorem chat_persist_before_deliver_before_confirm_witness :
    handleChatMessage chatEnvAB "alice" "cc" spoofedMsg
      = [.db (.insertMessage "p1" "mallory" "hi" "text"),
         .toUser "bob" (.messageReceived "p1" "mallory" "hi"),
         .sendTo "cc" (.messageSent "t1" "mallory" "hi"),
         .toUser "bob" (.typingIndicator "alice" "p1" false),
         .pushCheck "bob"] := by
  have h := (chat_persist_before_deliver_before_confirm chatEnvAB "alice" "cc"
    spoofedMsg).2.2.2.2.1 ⟨"alice", "bob"⟩ (by decide) (by decide) (by decide)
  exact h.trans (by decide)

/-! ## C4: busy callee means explicit busy error and no session -/

/-- C4: For every `call_offer` whose pairing resolves and whose sender is
a member, if the computed callee is involved in any non-ended call in the
active map, `handleCallOffer` returns the map unchanged (no session
created, no database write) and sends only a `call_error` with the busy
indication `User busy`, which is distinct from the not-found errors
`Call not found` and `Invalid pairing`. -/
theorem offer_busy_rejected :
    ∀ (env : SigEnv) (u c : String) (d : OfferData) (now : Nat) (calls : CallMap)
      (p : Pairing),
    env.getActivePairing d.pairingId = some p →
    (p.studentId = u ∨ p.parentId = u) →
    findBusy (if p.studentId = u then p.parentId else p.studentId) calls = true →
    handleCallOffer env u c d now calls
      = (calls, [.sendTo c (.callError d.callId "User busy")]) ∧
    ("User busy" : String) ≠ "Call not found" ∧
    ("User busy" : String) ≠ "Invalid pairing" := by
  intro env u c d now calls p hp hmem hbusy
  refine ⟨?_, by decide, by decide⟩
  have hmem₂ : ¬(p.studentId ≠ u ∧ p.parentId ≠ u) := by tauto
  simp [handleCallOffer, hp, hmem₂, hbusy]

/-- C4 witness: `x` offers to `z` over p1 while `z` is already calling
`w`; the offer is rejected busy and the map is unchanged. -/
theorem offer_busy_rejected_witness :
    handleCallOffer sigEnvX "x" "cx" ⟨"call9", "p1", "video"⟩ 5
        [("call0", ⟨"call0", "p0", "z", "w", "video", .ringing, 0, none, none⟩)]
      = ([("call0", ⟨"call0", "p0", "z", "w", "video", .ringing, 0, none, none⟩)],
         [.sendTo "cx" (.callError "call9" "User busy")]) := by
  have h := offer_busy_rejected sigEnvX "x" "cx" ⟨"call9", "p1", "video"⟩ 5
    [("call0", ⟨"call0", "p0", "z", "w", "video", .ringing, 0, none, none⟩)]
    pairXZ (by decide) (by decide) (by decide)
  exact h.1.trans (by decide)

/-! ## C7: ending a call is idempotent -/

/-- C7: `endCall` (and hence `handleCallHangup`) on a call id absent from
the active-call map returns the map unchanged with no effects: nothing is
persisted and no `call_ended` notification is emitted; in particular a
second `endCall` on the same id, after one that removed it, is always a
no-op. -/
theorem end_call_idempotent :
    ∀ (calls : CallMap) (callId reason : String) (optReason : Option String)
      (now t₂ : Nat) (r₂ : String),
    (mapGet callId calls = none →
      endCall callId reason now calls = (calls, []) ∧
      handleCallHangup callId optReason now calls = (calls, [])) ∧
    endCall callId r₂ t₂ (endCall callId reason now calls).1
      = ((endCall callId reason now calls).1, []) := by
  intro calls callId reason optReason now t₂ r₂
  constructor
  · intro h
    exact ⟨by simp [endCall, h], by simp [handleCallHangup, endCall, h]⟩
  · cases hg : mapGet callId calls with
    | none => simp [endCall, hg]
    | some call =>
      have h₁ : (endCall callId reason now calls).1 = mapDelete callId calls := by
        simp [endCall, hg]
      rw [h₁]
      simp [endCall, mapGet_mapDelete_self]

/-- C7 witness: hangup on an id absent from an empty map is a no-op. -/
theorem end_call_idempotent_witness :
    endCall "call1" "hangup" 5 [] = ([], []) ∧
    handleCallHangup "call1" none 5 [] = ([], []) := by
  exact (end_call_idempotent [] "call1" "hangup" none 5 0 "x").1 (by decide)

/-! ## C8: visibility and DND suppress partner notification, not persistence -/

/-- C8: For every presence status change by a user whose profile is a
student (the spec's primary) with `visible_to_partner = false`, or who has
`dnd_enabled`, `notifyPairedPartners` emits nothing, and the full
`handlePresenceUpdate` path still persists the presence row (and confirms
to the caller) while sending no `partner_presence_update`. -/
theorem presence_visibility_suppression :
    ∀ (env : PresenceEnv) (u s c : String) (prof : Profile),
    env.profileOf u = some prof →
    ((prof.userType = "student" ∧ prof.visibleToPartner = false) ∨ prof.dndEnabled = true) →
    notifyPairedPartners env u s = [] ∧
    handlePresenceUpdate env u c u s
      = [.db (.upsertPresence u s), .sendTo c (.presenceUpdated s)] := by
  intro env u s c prof hprof hsup
  have hn : notifyPairedPartners env u s = [] := by
    simp [notifyPairedPartners, hprof, hsup]
  exact ⟨hn, by simp [handlePresenceUpdate, hn]⟩

/-- C8 witness: a student with visibility off goes online; the partner is
not notified but the presence row is persisted. -/
theorem presence_visibility_suppression_witness :
    notifyPairedPartners
        ⟨fun u => if u = "h" then [⟨"h", "k"⟩] else [],
         fun u => if u = "h" then some ⟨"student", false, false⟩ else none⟩
        "h" "online" = [] ∧
    handlePresenceUpdate
        ⟨fun u => if u = "h" then [⟨"h", "k"⟩] else [],
         fun u => if u = "h" then some ⟨"student", false, false⟩ else none⟩
        "h" "ch" "h" "online"
      = [.db (.upsertPresence "h" "online"), .sendTo "ch" (.presenceUpdated "online")] :=
  presence_visibility_suppression
    ⟨fun u => if u = "h" then [⟨"h", "k"⟩] else [],
     fun u => if u = "h" then some ⟨"student", false, false⟩ else none⟩
    "h" "online" "ch" ⟨"student", false, false⟩ (by decide) (by decide)

/-! ## C10: persisted sender id comes from the envelope, not the session -/

/-- C10: the `messages` insert and the delivery broadcast carry
`data.senderId` from the envelope, not the authenticated connection's user
id; consequently, on an input whose `data.senderId` (`mallory`) differs
from the authenticated user (`alice`) and whose permission check passes, a
message is stored and delivered whose recorded sender is not the
authenticated sender. -/
theorem sender_taken_from_envelope :
    (∀ (env : ChatEnv) (u c : String) (d : ChatMsgData) (p : Pairing),
      env.hasPermission u d.pairingId = true → env.insertOk = true →
      env.getPairing d.pairingId = some p →
      (handleChatMessage env u c d).head?
          = some (.db (.insertMessage d.pairingId d.senderId d.content d.messageType)) ∧
      .toUser (if p.studentId = u then p.parentId else p.studentId)
          (.messageReceived d.pairingId d.senderId d.content) ∈ handleChatMessage env u c d) ∧
    (.db (.insertMessage "p1" "mallory" "hi" "text")
        ∈ handleChatMessage chatEnvAB "alice" "cc" spoofedMsg ∧
     .toUser "bob" (.messageReceived "p1" "mallory" "hi")
        ∈ handleChatMessage chatEnvAB "alice" "cc" spoofedMsg ∧
     spoofedMsg.senderId ≠ "alice") := by
  constructor
  · intro env u c d p h₁ h₂ h₃
    constructor <;> simp [handleChatMessage, h₁, h₂, h₃]
  · refine ⟨by decide, by decide, by decide⟩

/-- C10 witness: the general part applied at the concrete spoofed input. -/
theorem sender_taken_from_envelope_witness :
    (handleChatMessage chatEnvAB "alice" "cc" spoofedMsg).head?
      = some (.db (.insertMessage "p1" "mallory" "hi" "text")) := by
  have h := (sender_taken_from_envelope.1 chatEnvAB "alice" "cc" spoofedMsg
    ⟨"alice", "bob"⟩ (by decide) (by decide) (by decide)).1
  exact h.trans (by decide)

/-! ## C2: presence notifications are per connection open, not per transition -/

theorem countPartnerUpdatesTo_append (partner : String) (l₁ l₂ : List Effect) :
    countPartnerUpdatesTo partner (l₁ ++ l₂)
      = countPartnerUpdatesTo partner l₁ + countPartnerUpdatesTo partner l₂ :=
  List.countP_append _ _ _

/-- C2 counterexample: user `a` (visible, paired with `b`) opens a second
presence connection while already online; `presenceHandler` notifies the
partner on every accepted connection, so `b` receives two
`partner_presence_update` envelopes, not the one the claim requires. -/
theorem presence_duplicate_notification_counterexample :
    countPartnerUpdatesTo "b" (presenceConnectRun presEnvAB "a" ["c1", "c2"]) = 2 ∧
    ¬ countPartnerUpdatesTo "b" (presenceConnectRun presEnvAB "a" ["c1", "c2"]) = 1 :=
  ⟨by decide, by decide⟩

/-- C2 amended: for a user with one active pairing whose visibility rules
allow notification, every presence-channel connection open emits exactly
one `partner_presence_update` to the partner, so N opens emit N
notifications (rather than one per offline-to-online transition). -/
theorem presence_notification_per_connection :
    ∀ (env : PresenceEnv) (u partner : String) (connIds : List String)
      (prof : Profile) (p : Pairing),
    env.profileOf u = some prof →
    ¬((prof.userType = "student" ∧ prof.visibleToPartner = false) ∨ prof.dndEnabled = true) →
    env.pairingsOf u = [p] →
    partner = (if p.studentId = u then p.parentId else p.studentId) →
    countPartnerUpdatesTo partner (presenceConnectRun env u connIds) = connIds.length := by
  intro env u partner connIds prof p hprof hvis hpair hpartner
  subst hpartner
  induction connIds with
  | nil => simp [presenceConnectRun, countPartnerUpdatesTo]
  | cons c rest ih =>
    have hsingle : countPartnerUpdatesTo (if p.studentId = u then p.parentId else p.studentId)
        (presenceConnect env u c) = 1 := by
      simp [presenceConnect, notifyPairedPartners, hprof, hvis, hpair,
        countPartnerUpdatesTo, List.countP_cons, List.countP_append]
    have hrun : presenceConnectRun env u (c :: rest)
        = presenceConnect env u c ++ presenceConnectRun env u rest := by
      simp [presenceConnectRun]
    rw [hrun, countPartnerUpdatesTo_append, hsingle, ih]
    simp [Nat.add_comm]

/-- C2 amended witness: two connection opens by `a` produce two
notifications to `b`. -/
theorem presence_notification_per_connection_witness :
    countPartnerUpdatesTo "b" (presenceConnectRun presEnvAB "a" ["d1", "d2", "d3"]) = 3 := by
  have h := presence_notification_per_connection presEnvAB "a" "b" ["d1", "d2", "d3"]
    ⟨"parent", true, false⟩ ⟨"a", "b"⟩ (by decide) (by decide) (by decide) (by decide)
  exact h.trans (by decide)

/-! ## C6: the stale sweep evicts by heartbeat age but runs no cleanup path -/

theorem removeConnection_connections (i : String) (m : ConnMgr) :
    (removeConnection i m).connections = mapDelete i m.connections := by
  unfold removeConnection
  cases hg : mapGet i m.connections with
  | none => exact (mapDelete_of_get_none i _ hg).symm
  | some c => rfl

theorem sweep_fold_get (ids : List String) (m : ConnMgr) (i : String) :
    mapGet i (ids.foldl (fun acc j => removeConnection j acc) m).connections
      = if i ∈ ids then none else mapGet i m.connections := by
  induction ids generalizing m with
  | nil => simp
  | cons j rest ih =>
    simp only [List.foldl_cons]
    rw [ih]
    by_cases hir : i ∈ rest
    · simp [hir]
    · simp only [if_neg hir]
      rw [removeConnection_connections]
      by_cases hij : i = j
      · subst hij
        simp [mapGet_mapDelete_self]
      · simp [List.mem_cons, hij, hir, mapGet_mapDelete_ne _ _ _ hij]

theorem mem_staleIds (now : Nat) (m : ConnMgr) (i : String) :
    i ∈ staleIds now m
      ↔ ∃ c, (i, c) ∈ m.connections ∧ staleTimeoutMs < now - c.lastHeartbeat := by
  unfold staleIds
  constructor
  · intro h
    obtain ⟨⟨i₁, c₁⟩, he, hei⟩ := List.mem_map.mp h
    simp only at hei
    subst hei
    obtain ⟨hm, hf⟩ := List.mem_filter.mp he
    exact ⟨c₁, hm, of_decide_eq_true hf⟩
  · rintro ⟨c, hm, hst⟩
    exact List.mem_map.mpr ⟨(i, c), List.mem_filter.mpr ⟨hm, decide_eq_true hst⟩, rfl⟩

/-- C6 counterexample: a single stale presence connection.  The sweep
removes it from the registry but emits no effect at all, while the
explicit close path on the very same connection persists the user's
`offline` presence row — so eviction by the sweep does not trigger the
cleanup path (presence-offline evaluation, call cascade) that an explicit
close triggers. -/
theorem sweep_no_cleanup_counterexample :
    (sweepOnce 100000 staleMgr).2 = [] ∧
    mapGet "i" (sweepOnce 100000 staleMgr).1.connections = none ∧
    (presenceClose emptyPresEnv staleConn staleMgr).2
      = [.db (.upsertPresence "u" "offline")] ∧
    ¬ (sweepOnce 100000 staleMgr).2 = (presenceClose emptyPresEnv staleConn staleMgr).2 :=
  ⟨rfl, by decide, by decide, by decide⟩

/-- C6 amended: the sweep body (scheduled every `sweepIntervalMs` =
30000 ms) removes from the by-id index exactly the connections whose
last-heartbeat age strictly exceeds `staleTimeoutMs` = 60000 ms, and
performs registry removal only — its effect list is empty, so no
presence-offline evaluation and no connection-lost call cascade run on
eviction. -/
theorem sweep_removes_stale_registry_only :
    ∀ (now : Nat) (m : ConnMgr) (i : String),
    KeysNodup m.connections →
    (sweepOnce now m).2 = [] ∧
    staleTimeoutMs = 60000 ∧ sweepIntervalMs = 30000 ∧
    (∀ c, mapGet i m.connections = some c →
      mapGet i (sweepOnce now m).1.connections
        = if staleTimeoutMs < now - c.lastHeartbeat then none else some c) ∧
    (mapGet i m.connections = none →
      mapGet i (sweepOnce now m).1.connections = none) := by
  intro now m i hnd
  have hfold : (sweepOnce now m).1
      = (staleIds now m).foldl (fun acc j => removeConnection j acc) m := rfl
  refine ⟨rfl, rfl, rfl, ?_, ?_⟩
  · intro c hc
    rw [hfold, sweep_fold_get]
    by_cases hst : staleTimeoutMs < now - c.lastHeartbeat
    · have hiS : i ∈ staleIds now m :=
        (mem_staleIds now m i).mpr ⟨c, mapGet_mem _ _ _ hc, hst⟩
      simp [hiS, hst]
    · have hiS : i ∉ staleIds now m := by
        intro hiS
        obtain ⟨c₁, hm₁, hst₁⟩ := (mem_staleIds now m i).mp hiS
        have hc₁ : mapGet i m.connections = some c₁ :=
          mapGet_eq_of_mem_nodup i c₁ m.connections hnd hm₁
        rw [hc] at hc₁
        injection hc₁ with hc₁
        exact hst (hc₁ ▸ hst₁)
      simp only [if_neg hiS, if_neg hst]
      exact hc
  · intro hc
    rw [hfold, sweep_fold_get]
    by_cases hiS : i ∈ staleIds now m <;> simp [hiS, hc]

/-- C6 amended witness: the characterization at the concrete stale
registry. -/
theorem sweep_removes_stale_registry_only_witness :
    (sweepOnce 100000 staleMgr).2 = [] ∧
    mapGet "i" (sweepOnce 100000 staleMgr).1.connections
      = if staleTimeoutMs < 100000 - staleConn.lastHeartbeat then none
        else some staleConn := by
  have h := sweep_removes_stale_registry_only 100000 staleMgr "i"
    (by unfold KeysNodup; decide)
  exact ⟨h.1, h.2.2.2.1 staleConn (by decide)⟩

/-! ## C9: the two registry indexes stay consistent -/

theorem consistent_addConnection (m : ConnMgr) (c : Conn) (hm : Consistent m)
    (hfresh : mapGet c.id m.connections = none) : Consistent (addConnection c m) := by
  obtain ⟨h1, h2⟩ := hm
  have hconn : (addConnection c m).connections = mapSet c.id c m.connections := rfl
  have huc : (addConnection c m).userConnections
      = mapSet c.userId (setAdd c.id ((mapGet c.userId m.userConnections).getD []))
          m.userConnections := rfl
  constructor
  · intro u ids hids
    rw [huc] at hids
    by_cases hu : u = c.userId
    · subst hu
      rw [mapGet_mapSet_self] at hids
      injection hids with hids
      subst hids
      refine ⟨setAdd_ne_nil _ _, ?_⟩
      intro j hj
      rcases mem_setAdd _ _ _ hj with hjc | hj₂
      · subst hjc
        exact ⟨c, by rw [hconn]; exact mapGet_mapSet_self _ _ _, rfl⟩
      · cases hcur : mapGet c.userId m.userConnections with
        | none =>
          rw [hcur] at hj₂
          simp at hj₂
        | some ids₀ =>
          rw [hcur] at hj₂
          simp only [Option.getD_some] at hj₂
          obtain ⟨-, hall⟩ := h1 c.userId ids₀ hcur
          obtain ⟨cj, hcj, hcju⟩ := hall j hj₂
          have hne : j ≠ c.id := by
            intro he
            rw [he, hfresh] at hcj
            exact Option.noConfusion hcj
          exact ⟨cj, by rw [hconn, mapGet_mapSet_ne _ _ _ _ hne]; exact hcj, hcju⟩
    · rw [mapGet_mapSet_ne _ _ _ _ hu] at hids
      obtain ⟨hne, hall⟩ := h1 u ids hids
      refine ⟨hne, ?_⟩
      intro j hj
      obtain ⟨cj, hcj, hcju⟩ := hall j hj
      have hne₂ : j ≠ c.id := by
        intro he
        rw [he, hfresh] at hcj
        exact Option.noConfusion hcj
      exact ⟨cj, by rw [hconn, mapGet_mapSet_ne _ _ _ _ hne₂]; exact hcj, hcju⟩
  · intro j cj hcj
    rw [hconn] at hcj
    by_cases hjc : j = c.id
    · subst hjc
      rw [mapGet_mapSet_self] at hcj
      injection hcj with hcj
      subst hcj
      refine ⟨setAdd c.id ((mapGet c.userId m.userConnections).getD []), ?_,
        mem_setAdd_self _ _⟩
      rw [huc]
      exact mapGet_mapSet_self _ _ _
    · rw [mapGet_mapSet_ne _ _ _ _ hjc] at hcj
      obtain ⟨ids₀, hids₀, hmem⟩ := h2 j cj hcj
      by_cases hu : cj.userId = c.userId
      · refine ⟨setAdd c.id ((mapGet c.userId m.userConnections).getD []), ?_, ?_⟩
        · rw [huc, hu]
          exact mapGet_mapSet_self _ _ _
        · rw [hu] at hids₀
          rw [hids₀]
          exact mem_setAdd_of_mem _ _ _ hmem
      · exact ⟨ids₀, by rw [huc, mapGet_mapSet_ne _ _ _ _ hu]; exact hids₀, hmem⟩

theorem consistent_removeConnection (i : String) (m : ConnMgr) (hm : Consistent m) :
    Consistent (removeConnection i m) := by
  obtain ⟨h1, h2⟩ := hm
  cases hg : mapGet i m.connections with
  | none =>
    have : removeConnection i m = m := by
      unfold removeConnection
      rw [hg]
    rw [this]
    exact ⟨h1, h2⟩
  | some c =>
    obtain ⟨ids₀, hids₀, hmem₀⟩ := h2 i c hg
    have hconn : (removeConnection i m).connections = mapDelete i m.connections :=
      removeConnection_connections i m
    have huc : (removeConnection i m).userConnections
        = if ids₀.filter (fun j => j ≠ i) = []
          then mapDelete c.userId m.userConnections
          else mapSet c.userId (ids₀.filter (fun j => j ≠ i)) m.userConnections := by
      simp only [removeConnection, hg, hids₀]
    by_cases hnil : ids₀.filter (fun j => j ≠ i) = []
    · rw [if_pos hnil] at huc
      constructor
      · intro u ids hids
        rw [huc] at hids
        have hu : u ≠ c.userId := by
          intro he
          rw [he, mapGet_mapDelete_self] at hids
          exact Option.noConfusion hids
        rw [mapGet_mapDelete_ne _ _ _ hu] at hids
        obtain ⟨hne, hall⟩ := h1 u ids hids
        refine ⟨hne, ?_⟩
        intro j hj
        obtain ⟨cj, hcj, hcju⟩ := hall j hj
        have hji : j ≠ i := by
          intro he
          rw [he, hg] at hcj
          injection hcj with hcj
          exact hu (by rw [← hcju, hcj])
        exact ⟨cj, by rw [hconn, mapGet_mapDelete_ne _ _ _ hji]; exact hcj, hcju⟩
      · intro j cj hcj
        rw [hconn] at hcj
        have hji : j ≠ i := by
          intro he
          rw [he, mapGet_mapDelete_self] at hcj
          exact Option.noConfusion hcj
        rw [mapGet_mapDelete_ne _ _ _ hji] at hcj
        obtain ⟨ids₁, hids₁, hmem₁⟩ := h2 j cj hcj
        have hcu : cj.userId ≠ c.userId := by
          intro he
          rw [he, hids₀] at hids₁
          injection hids₁ with hids₁
          subst hids₁
          have hjf : j ∈ ids₀.filter (fun k => k ≠ i) :=
            List.mem_filter.mpr ⟨hmem₁, by simp [hji]⟩
          rw [hnil] at hjf
          simp at hjf
        exact ⟨ids₁, by rw [huc, mapGet_mapDelete_ne _ _ _ hcu]; exact hids₁, hmem₁⟩
    · rw [if_neg hnil] at huc
      constructor
      · intro u ids hids
        rw [huc] at hids
        by_cases hu : u = c.userId
        · subst hu
          rw [mapGet_mapSet_self] at hids
          injection hids with hids
          subst hids
          refine ⟨hnil, ?_⟩
          intro j hj
          obtain ⟨hj₀, hjne⟩ := List.mem_filter.mp hj
          have hji : j ≠ i := by simpa using hjne
          obtain ⟨-, hall⟩ := h1 c.userId ids₀ hids₀
          obtain ⟨cj, hcj, hcju⟩ := hall j hj₀
          exact ⟨cj, by rw [hconn, mapGet_mapDelete_ne _ _ _ hji]; exact hcj, hcju⟩
        · rw [mapGet_mapSet_ne _ _ _ _ hu] at hids
          obtain ⟨hne, hall⟩ := h1 u ids hids
          refine ⟨hne, ?_⟩
          intro j hj
          obtain ⟨cj, hcj, hcju⟩ := hall j hj
          have hji : j ≠ i := by
            intro he
            rw [he, hg] at hcj
            injection hcj with hcj
            exact hu (by rw [← hcju, hcj])
          exact ⟨cj, by rw [hconn, mapGet_mapDelete_ne _ _ _ hji]; exact hcj, hcju⟩
      · intro j cj hcj
        rw [hconn] at hcj
        have hji : j ≠ i := by
          intro he
          rw [he, mapGet_mapDelete_self] at hcj
          exact Option.noConfusion hcj
        rw [mapGet_mapDelete_ne _ _ _ hji] at hcj
        obtain ⟨ids₁, hids₁, hmem₁⟩ := h2 j cj hcj
        by_cases hcu : cj.userId = c.userId
        · rw [hcu, hids₀] at hids₁
          injection hids₁ with hids₁
          subst hids₁
          refine ⟨ids₀.filter (fun k => k ≠ i), ?_, ?_⟩
          · rw [huc, hcu]
            exact mapGet_mapSet_self _ _ _
          · exact List.mem_filter.mpr ⟨hmem₁, by simp [hji]⟩
        · exact ⟨ids₁, by rw [huc, mapGet_mapSet_ne _ _ _ _ hcu]; exact hids₁, hmem₁⟩

theorem consistent_broadcastToUser (u : String) (msg : WsMsg) (ex : Option String)
    (dead : String → Bool) (m : ConnMgr) (hm : Consistent m) :
    Consistent (broadcastToUser u msg ex dead m).1 := by
  unfold broadcastToUser
  suffices h : ∀ (cs : List Conn) (acc : ConnMgr × List Effect), Consistent acc.1 →
      Consistent (cs.foldl
        (fun acc c =>
          if some c.id = ex then acc
          else if dead c.id then (removeConnection c.id acc.1, acc.2)
          else (acc.1, acc.2 ++ [.sendTo c.id msg])) acc).1 by
    exact h (getUserConnections u m) (m, []) hm
  intro cs
  induction cs with
  | nil => intro acc h; exact h
  | cons c rest ih =>
    intro acc h
    simp only [List.foldl_cons]
    apply ih
    by_cases h₁ : some c.id = ex
    · simp only [if_pos h₁]
      exact h
    · by_cases h₂ : dead c.id
      · simp only [if_neg h₁, if_pos h₂]
        exact consistent_removeConnection _ _ h
      · simp only [if_neg h₁, if_neg h₂]
        exact h

/-- C9 counterexample: calling `addConnection` twice with the same
connection id `i` under two different user ids leaves the by-user index
claiming that user `u` owns connection `i`, while the by-id map records
`i` as belonging to `v` — the two indexes are not consistent after this
call sequence, so the invariant does not hold for arbitrary sequences of
the three registry operations. -/
theorem registry_index_desync_counterexample :
    ¬ Consistent (addConnection ⟨"i", "v", "presence", 0⟩
        (addConnection ⟨"i", "u", "presence", 0⟩ emptyMgr)) := by
  intro h
  obtain ⟨h1, -⟩ := h
  have hu : mapGet "u" (addConnection ⟨"i", "v", "presence", 0⟩
      (addConnection ⟨"i", "u", "presence", 0⟩ emptyMgr)).userConnections
        = some ["i"] := by decide
  obtain ⟨-, hall⟩ := h1 "u" ["i"] hu
  obtain ⟨c, hc, hcu⟩ := hall "i" (by decide)
  have hv : mapGet "i" (addConnection ⟨"i", "v", "presence", 0⟩
      (addConnection ⟨"i", "u", "presence", 0⟩ emptyMgr)).connections
        = some ⟨"i", "v", "presence", 0⟩ := by decide
  rw [hv] at hc
  injection hc with hc
  subst hc
  exact absurd hcu (by decide)

/-- C9 amended: starting from the empty registry, every sequence of
`addConnection`, `removeConnection` and `broadcastToUser` calls keeps the
two indexes consistent — provided each added connection carries an id not
currently in the by-id map (true of the generated per-process-unique ids):
the by-user index maps each user to exactly the nonempty set of ids of
by-id connections owned by that user, and `removeConnection` on an absent
id leaves the registry unchanged. -/
theorem registry_indexes_consistent :
    Consistent emptyMgr ∧
    (∀ (m : ConnMgr) (op : MgrOp), Consistent m → FreshId m op →
      Consistent (applyMgrOp m op)) ∧
    (∀ (m : ConnMgr) (i : String), mapGet i m.connections = none →
      removeConnection i m = m) := by
  refine ⟨⟨?_, ?_⟩, ?_, ?_⟩
  · intro u ids h
    exact Option.noConfusion h
  · intro i c h
    exact Option.noConfusion h
  · intro m op hm hf
    cases op with
    | add c => exact consistent_addConnection m c hm hf
    | remove i => exact consistent_removeConnection i m hm
    | broadcast u msg ex dead => exact consistent_broadcastToUser u msg ex dead m hm
  · intro m i h
    unfold removeConnection
    rw [h]

/-- C9 amended witness: one fresh add applied to the empty registry via
the preservation theorem. -/
theorem registry_indexes_consistent_witness :
    Consistent (applyMgrOp emptyMgr (.add ⟨"i", "u", "presence", 0⟩)) :=
  registry_indexes_consistent.2.1 emptyMgr (.add ⟨"i", "u", "presence", 0⟩)
    registry_indexes_consistent.1 rfl

/-! ## C1 and C5: signaling-engine invariants over reachable states -/

theorem countP_mapSet_le (p : String × α → Bool) (k : String) (v : α)
    (l : List (String × α)) :
    (mapSet k v l).countP p ≤ l.countP p + (if p (k, v) then 1 else 0) := by
  cases hg : mapGet k l with
  | none =>
    rw [countP_mapSet_of_get_none p k v l hg]
  | some v₀ =>
    have h := countP_mapSet_of_get p k v v₀ l hg
    omega

theorem calleeCount_zero_of_not_busy (x : String) (calls : CallMap)
    (h : findBusy x calls = false) : calleeNonEndedCount x calls = 0 := by
  unfold calleeNonEndedCount
  rw [List.countP_eq_zero]
  intro e he
  unfold findBusy at h
  have h₂ := List.any_eq_false.mp h e he
  simp only [decide_eq_true_eq] at h₂ ⊢
  rintro ⟨hc, hs⟩
  exact h₂ ⟨Or.inr hc, hs⟩

theorem sigInv_endCall (callId reason : String) (now : Nat) (calls : CallMap)
    (h : SigInv calls) : SigInv (endCall callId reason now calls).1 := by
  obtain ⟨hwf, hcnt⟩ := h
  cases hg : mapGet callId calls with
  | none =>
    simp only [endCall, hg]
    exact ⟨hwf, hcnt⟩
  | some call =>
    simp only [endCall, hg]
    refine ⟨fun e he => hwf e (mem_mapDelete _ _ _ he), fun u => ?_⟩
    exact le_trans (countP_mapDelete_le _ _ _) (hcnt u)

theorem sigInv_endFold (reason : String) (now : Nat) :
    ∀ (es : List (String × ActiveCall)) (acc : CallMap × List Effect),
    SigInv acc.1 →
    SigInv (es.foldl
      (fun a e => ((endCall e.2.id reason now a.1).1, a.2 ++ (endCall e.2.id reason now a.1).2))
      acc).1 := by
  intro es
  induction es with
  | nil => intro acc h; exact h
  | cons e rest ih =>
    intro acc h
    simp only [List.foldl_cons]
    exact ih _ (sigInv_endCall _ _ _ _ h)

theorem sigInv_step (env : SigEnv) (calls : CallMap) (op : SigOp) (h : SigInv calls) :
    SigInv (sigStep env calls op).1 := by
  obtain ⟨hwf, hcnt⟩ := h
  cases op with
  | offer u c d now =>
    cases hp : env.getActivePairing d.pairingId with
    | none =>
      simp only [sigStep, handleCallOffer, hp]
      exact ⟨hwf, hcnt⟩
    | some p =>
      by_cases hmem : p.studentId ≠ u ∧ p.parentId ≠ u
      · simp only [sigStep, handleCallOffer, hp, if_pos hmem]
        exact ⟨hwf, hcnt⟩
      · by_cases hbusy : findBusy (if p.studentId = u then p.parentId else p.studentId) calls
          = true
        · simp only [sigStep, handleCallOffer, hp, if_neg hmem, hbusy, if_true]
          exact ⟨hwf, hcnt⟩
        · have hbusy₂ : findBusy (if p.studentId = u then p.parentId else p.studentId) calls
              = false := by
            revert hbusy
            cases findBusy (if p.studentId = u then p.parentId else p.studentId) calls <;> simp
          simp only [sigStep, handleCallOffer, hp, if_neg hmem, hbusy₂, Bool.false_eq_true,
            if_false]
          constructor
          · intro e he
            rcases mem_mapSet _ _ _ _ he with he₁ | he₂
            · subst he₁
              exact ⟨rfl, fun hcontra => CallStatus.noConfusion hcontra, fun _ => rfl⟩
            · exact hwf e he₂
          · intro u₂
            unfold calleeNonEndedCount
            refine le_trans (countP_mapSet_le _ _ _ _) ?_
            by_cases hu : (if p.studentId = u then p.parentId else p.studentId) = u₂
            · have hzero : calleeNonEndedCount u₂ calls = 0 := by
                rw [← hu]
                exact calleeCount_zero_of_not_busy _ _ hbusy₂
              unfold calleeNonEndedCount at hzero
              rw [hzero]
              repeat' split
              all_goals simp
            · have hbit : (decide ((if p.studentId = u then p.parentId else p.studentId) = u₂
                  ∧ CallStatus.ringing ≠ CallStatus.ended)) = false := by
                simp [hu]
              simp only [hbit, Bool.false_eq_true, if_false, Nat.add_zero]
              exact hcnt u₂
  | answer u c callId now =>
    cases hg : mapGet callId calls with
    | none =>
      simp only [sigStep, handleCallAnswer, hg]
      exact ⟨hwf, hcnt⟩
    | some call =>
      by_cases hcal : call.calleeId ≠ u
      · simp only [sigStep, handleCallAnswer, hg, if_pos hcal]
        exact ⟨hwf, hcnt⟩
      · simp only [sigStep, handleCallAnswer, hg, if_neg hcal]
        have hmem := mapGet_mem _ _ _ hg
        obtain ⟨hkey, hnend, -⟩ := hwf _ hmem
        constructor
        · intro e he
          rcases mem_mapSet _ _ _ _ he with he₁ | he₂
          · subst he₁
            exact ⟨hkey, fun hcontra => CallStatus.noConfusion hcontra,
              fun hcontra => CallStatus.noConfusion hcontra⟩
          · exact hwf e he₂
        · intro u₂
          unfold calleeNonEndedCount
          have heq := countP_mapSet_of_get
            (fun e => decide (e.2.calleeId = u₂ ∧ e.2.status ≠ CallStatus.ended))
            callId { call with status := CallStatus.connected, connectedAt := some now }
            call calls hg
          have hbits : (decide (call.calleeId = u₂ ∧ CallStatus.connected ≠ CallStatus.ended))
              = (decide (call.calleeId = u₂ ∧ call.status ≠ CallStatus.ended)) := by
            by_cases hcc : call.calleeId = u₂ <;> simp [hcc, hnend]
          simp only [hbits] at heq
          have := hcnt u₂
          unfold calleeNonEndedCount at this
          omega
  | candidate u callId =>
    have hfst : (handleCallCandidate u callId calls).1 = calls := by
      unfold handleCallCandidate
      cases hg : mapGet callId calls with
      | none => rfl
      | some call =>
        by_cases hmem : call.callerId ≠ u ∧ call.calleeId ≠ u <;> simp [hmem]
    simp only [sigStep, hfst]
    exact ⟨hwf, hcnt⟩
  | hangup callId reason now =>
    simp only [sigStep, handleCallHangup]
    exact sigInv_endCall _ _ _ _ ⟨hwf, hcnt⟩
  | timeoutAt callId now =>
    cases hg : mapGet callId calls with
    | none =>
      simp only [sigStep, timeoutFire, hg]
      exact ⟨hwf, hcnt⟩
    | some call =>
      by_cases hr : call.status = CallStatus.ringing
      · simp only [sigStep, timeoutFire, hg, if_pos hr]
        exact sigInv_endCall _ _ _ _ ⟨hwf, hcnt⟩
      · simp only [sigStep, timeoutFire, hg, if_neg hr]
        exact ⟨hwf, hcnt⟩
  | disconnect u now =>
    simp only [sigStep]
    unfold endUserCalls
    exact sigInv_endFold _ _ _ _ ⟨hwf, hcnt⟩

theorem sigInv_run (env : SigEnv) (ops : List SigOp) : SigInv (sigRun env ops) := by
  unfold sigRun
  suffices h : ∀ (ops : List SigOp) (calls : CallMap), SigInv calls →
      SigInv (ops.foldl (fun calls op => (sigStep env calls op).1) calls) by
    refine h ops [] ⟨fun e he => absurd he (List.not_mem_nil e), fun u => ?_⟩
    simp [calleeNonEndedCount]
  intro ops
  induction ops with
  | nil => intro calls h; exact h
  | cons op rest ih =>
    intro calls h
    simp only [List.foldl_cons]
    exact ih _ (sigInv_step env calls op h)

/-- C1 counterexample: `x`, already in a ringing call with `z` over
pairing p1, sends a second `call_offer` to `y` over pairing p2.  The busy
check inspects only the callee `y`, so the second session is created and
the reachable state holds two non-ended `CallSession`s in which `x` is the
caller — the at-most-one invariant fails for `x`. -/
theorem caller_two_active_calls_counterexample :
    nonEndedCountFor "x" (sigRun sigEnvX [offerXZ, offerXY]) = 2 ∧
    ¬ nonEndedCountFor "x" (sigRun sigEnvX [offerXZ, offerXY]) ≤ 1 :=
  ⟨by decide, by decide⟩

/-- C1 amended: in every reachable state of the signaling engine, each
user appears as the **callee** of at most one non-ended `CallSession` (the
busy check protects the callee only; the caller side is unprotected, as
the counterexample shows). -/
theorem callee_at_most_one_active :
    ∀ (env : SigEnv) (ops : List SigOp) (u : String),
    calleeNonEndedCount u (sigRun env ops) ≤ 1 :=
  fun env ops u => (sigInv_run env ops).2 u

/-- C5: in every reachable state, firing the offer's timeout task on a
call that is still `ringing` ends it with reason `timeout` and duration 0
(a ringing call has no `connectedAt` stamp), persisting the terminal row,
notifying both parties and removing the call from the map; if the call has
left `ringing` or is no longer in the map, the task is a no-op with no
effects. -/
theorem ringing_timeout_transitions :
    ∀ (env : SigEnv) (ops : List SigOp) (callId : String) (now : Nat),
    (∀ c : ActiveCall, mapGet callId (sigRun env ops) = some c →
      (c.status = CallStatus.ringing →
        timeoutFire callId now (sigRun env ops)
          = (mapDelete callId (sigRun env ops),
             [.db (.updateCallEnded callId 0 "timeout"),
              .toUser c.callerId (.callEnded callId "timeout" 0),
              .toUser c.calleeId (.callEnded callId "timeout" 0)])) ∧
      (¬ c.status = CallStatus.ringing →
        timeoutFire callId now (sigRun env ops) = (sigRun env ops, []))) ∧
    (mapGet callId (sigRun env ops) = none →
      timeoutFire callId now (sigRun env ops) = (sigRun env ops, [])) := by
  intro env ops callId now
  constructor
  · intro c hc
    have hwf := (sigInv_run env ops).1
    have hca := (hwf _ (mapGet_mem _ _ _ hc)).2.2
    constructor
    · intro hr
      have hcan : c.connectedAt = none := hca hr
      simp only [timeoutFire, hc, if_pos hr, endCall, hcan]
    · intro hr
      simp only [timeoutFire, hc, if_neg hr]
  · intro hc
    simp only [timeoutFire, hc]

/-- C5 witness: the ringing call created by a single offer times out with
reason `timeout` and duration 0. -/
theorem ringing_timeout_transitions_witness :
    timeoutFire "call1" 30000 (sigRun sigEnvX [offerXZ])
      = (mapDelete "call1" (sigRun sigEnvX [offerXZ]),
         [.db (.updateCallEnded "call1" 0 "timeout"),
          .toUser "x" (.callEnded "call1" "timeout" 0),
          .toUser "z" (.callEnded "call1" "timeout" 0)]) := by
  have h := ((ringing_timeout_transitions sigEnvX [offerXZ] "call1" 30000).1
    ⟨"call1", "p1", "x", "z", "video", CallStatus.ringing, 0, none, none⟩
    (by decide)).1 (by decide)
  exact h.trans (by decide)

end AWY
